import Mathlib

/-!
Verification of the image-obfuscation tool in `task2.0.py`.

The image is a three-dimensional array (height × width × channels) of
unsigned 8-bit values; we embed it as nested lists of `Nat`, with the
8-bit range tracked by the predicate `validBuf`.  `swap_pixels` embeds
`arr[::-1, ::-1]` (reverse the row axis and, inside every row, the
column axis; pixels themselves are untouched).  `xor_pixels` embeds
`np.bitwise_xor(arr, key).astype(np.uint8)`: a pointwise XOR followed by
truncation to 8 bits, i.e. reduction modulo 256.
-/

/-- An image buffer: a list of rows, each row a list of pixels, each pixel a
list of channel values. -/
abbrev Buffer := List (List (List Nat))

/-- Mode string selecting the reversal-only operation. -/
def mSwap : String := "swap"

/-- Mode string selecting the XOR-only operation. -/
def mMath : String := "math"

/-- Mode string selecting both operations. -/
def mBoth : String := "both"

/-- `swap_pixels(arr) = arr[::-1, ::-1]`: reverse the order of the rows and,
within each row, the order of the pixels.  Generic in the pixel type, as the
slice touches only the first two axes. -/
def swap_pixels {α : Type} (arr : List (List α)) : List (List α) :=
  arr.reverse.map List.reverse

/-- One element of `np.bitwise_xor(arr, key).astype(np.uint8)`: XOR with the
key, truncated to an unsigned 8-bit value. -/
def xorByte (v key : Nat) : Nat :=
  (v ^^^ key) % 256

/-- `xor_pixels(arr, key)`: XOR every channel of every pixel with the key and
cast the result back to `uint8`. -/
def xor_pixels (arr : Buffer) (key : Nat) : Buffer :=
  arr.map (fun row => row.map (fun px => px.map (fun v => xorByte v key)))

/-- `encrypt_array(arr, key, mode)`: XOR first (modes `math`, `both`), then
reversal (modes `swap`, `both`). -/
def encrypt_array (arr : Buffer) (key : Nat) (mode : String) : Buffer :=
  let arr1 := if mode = mMath ∨ mode = mBoth then xor_pixels arr key else arr
  if mode = mSwap ∨ mode = mBoth then swap_pixels arr1 else arr1

/-- `decrypt_array(arr, key, mode)`: reversal first (modes `swap`, `both`),
then XOR (modes `math`, `both`). -/
def decrypt_array (arr : Buffer) (key : Nat) (mode : String) : Buffer :=
  let arr1 := if mode = mSwap ∨ mode = mBoth then swap_pixels arr else arr
  if mode = mMath ∨ mode = mBoth then xor_pixels arr1 key else arr1

/-- Every channel value of the buffer fits in an unsigned 8-bit integer, as
`np.uint8` data does by construction. -/
def validBuf (arr : Buffer) : Prop :=
  ∀ row ∈ arr, ∀ px ∈ row, ∀ v ∈ px, v < 256

instance (arr : Buffer) : Decidable (validBuf arr) := by
  unfold validBuf; infer_instance

/-- The buffer has shape (H, W, C): H rows, each of W pixels, each of C
channel values. -/
def hasDims (arr : Buffer) (H W C : Nat) : Prop :=
  arr.length = H ∧ ∀ row ∈ arr, row.length = W ∧ ∀ px ∈ row, px.length = C

instance (arr : Buffer) (H W C : Nat) : Decidable (hasDims arr H W C) := by
  unfold hasDims; infer_instance

/-! Basic lemmas about the two primitives. -/

theorem swap_pixels_invol {α : Type} (arr : List (List α)) :
    swap_pixels (swap_pixels arr) = arr := by
  simp [swap_pixels, List.map_reverse, List.map_map, Function.comp_def]

theorem xorByte_invol (v key : Nat) (hv : v < 256) (hk : key < 256) :
    xorByte (xorByte v key) key = v := by
  unfold xorByte
  have hlt : v ^^^ key < 256 := Nat.xor_lt_two_pow (n := 8) hv hk
  rw [Nat.mod_eq_of_lt hlt, Nat.xor_cancel_right, Nat.mod_eq_of_lt hv]

theorem xor_pixels_invol (arr : Buffer) (key : Nat)
    (h : validBuf arr) (hk : key < 256) :
    xor_pixels (xor_pixels arr key) key = arr := by
  unfold xor_pixels
  rw [List.map_map]
  conv_rhs => rw [← List.map_id arr]
  apply List.map_congr_left
  intro row hrow
  simp only [Function.comp_apply, List.map_map, id_eq]
  conv_rhs => rw [← List.map_id row]
  apply List.map_congr_left
  intro px hpx
  simp only [Function.comp_apply, List.map_map, id_eq]
  conv_rhs => rw [← List.map_id px]
  apply List.map_congr_left
  intro v hv
  exact xorByte_invol v key (h row hrow px hpx v hv) hk

/-- C3: reversal involution — applying `swap_pixels` twice to any buffer
(so in particular any non-empty buffer) yields the original buffer. -/
theorem claim3_swap_involution (B : Buffer) :
    swap_pixels (swap_pixels B) = B :=
  swap_pixels_invol B

/-- C4: XOR involution — for every 8-bit buffer `B` and key in [0,255],
applying `xor_pixels` twice with the same key restores `B` exactly. -/
theorem claim4_xor_involution (B : Buffer) (k : Nat)
    (hB : validBuf B) (hk : k ≤ 255) :
    xor_pixels (xor_pixels B k) k = B :=
  xor_pixels_invol B k hB (Nat.lt_succ_of_le hk)

theorem claim4_xor_involution_witness :
    validBuf [[[0, 17], [255, 3]], [[9, 200], [1, 2]]] ∧
    xor_pixels (xor_pixels [[[0, 17], [255, 3]], [[9, 200], [1, 2]]] 123) 123
      = [[[0, 17], [255, 3]], [[9, 200], [1, 2]]] :=
  ⟨by decide, claim4_xor_involution _ 123 (by decide) (by decide)⟩

theorem swap_xor_comm (B : Buffer) (k : Nat) :
    swap_pixels (xor_pixels B k) = xor_pixels (swap_pixels B) k := by
  simp [swap_pixels, xor_pixels, List.map_reverse, List.map_map, Function.comp_def]

/-- C2: for mode `both`, encryption is XOR first then reversal, and
decryption is reversal first then XOR, for every buffer and every key. -/
theorem claim2_both_composition (B : Buffer) (k : Nat) :
    encrypt_array B k mBoth = swap_pixels (xor_pixels B k) ∧
    decrypt_array B k mBoth = xor_pixels (swap_pixels B) k := by
  constructor <;> rfl

/-- C9: the two orchestrators are extensionally equal — for every buffer,
key and mode string (in particular the three valid modes), encryption and
decryption produce the same buffer, because XOR with a uniform key commutes
with index reversal. -/
theorem claim9_encrypt_eq_decrypt (B : Buffer) (k : Nat) (m : String) :
    encrypt_array B k m = decrypt_array B k m := by
  unfold encrypt_array decrypt_array
  by_cases h1 : m = mMath ∨ m = mBoth <;>
    by_cases h2 : m = mSwap ∨ m = mBoth <;>
      simp [h1, h2, swap_xor_comm]

/-- C1: round trip — for every 8-bit buffer, every key in [0,255] and every
mode among `swap`, `math`, `both`, decrypting the encryption restores the
buffer exactly. -/
theorem claim1_roundtrip (B : Buffer) (k : Nat) (m : String)
    (hm : m = mSwap ∨ m = mMath ∨ m = mBoth)
    (hB : validBuf B) (hk : k ≤ 255) :
    decrypt_array (encrypt_array B k m) k m = B := by
  have hk' : k < 256 := Nat.lt_succ_of_le hk
  rcases hm with hm | hm | hm <;> subst hm <;>
    simp [encrypt_array, decrypt_array, mSwap, mMath, mBoth,
      swap_pixels_invol, xor_pixels_invol B k hB hk']

theorem claim1_roundtrip_witness :
    (mBoth = mSwap ∨ mBoth = mMath ∨ mBoth = mBoth) ∧
    validBuf [[[5, 6], [7, 8]], [[9, 10], [11, 12]]] ∧ (200 : Nat) ≤ 255 ∧
    decrypt_array (encrypt_array [[[5, 6], [7, 8]], [[9, 10], [11, 12]]] 200 mBoth) 200 mBoth
      = [[[5, 6], [7, 8]], [[9, 10], [11, 12]]] :=
  ⟨by simp, by decide, by decide,
    claim1_roundtrip _ 200 mBoth (by simp) (by decide) (by decide)⟩

theorem validBuf_swap (B : Buffer) (h : validBuf B) : validBuf (swap_pixels B) := by
  intro row hrow px hpx v hv
  simp only [swap_pixels, List.mem_map, List.mem_reverse] at hrow
  obtain ⟨a, ha, rfl⟩ := hrow
  rw [List.mem_reverse] at hpx
  exact h a ha px hpx v hv

theorem validBuf_xor (B : Buffer) (k : Nat) : validBuf (xor_pixels B k) := by
  intro row hrow px hpx v hv
  simp only [xor_pixels, List.mem_map] at hrow
  obtain ⟨a, _, rfl⟩ := hrow
  simp only [List.mem_map] at hpx
  obtain ⟨p, _, rfl⟩ := hpx
  simp only [List.mem_map] at hv
  obtain ⟨w, _, rfl⟩ := hv
  exact Nat.mod_lt _ (by norm_num)

/-- C6: range invariant — starting from an 8-bit buffer, every element of the
output of `swap_pixels`, of `xor_pixels`, and of `encrypt_array` and
`decrypt_array` in any mode, is again in [0,255]. -/
theorem claim6_range_invariant (B : Buffer) (k : Nat) (m : String)
    (hB : validBuf B) :
    validBuf (swap_pixels B) ∧ validBuf (xor_pixels B k) ∧
    validBuf (encrypt_array B k m) ∧ validBuf (decrypt_array B k m) := by
  refine ⟨validBuf_swap B hB, validBuf_xor B k, ?_, ?_⟩
  · simp only [encrypt_array]
    split <;> split <;>
      first
        | exact validBuf_swap _ (validBuf_xor B k)
        | exact validBuf_swap _ hB
        | exact validBuf_xor B k
        | exact hB
  · simp only [decrypt_array]
    split <;> split <;>
      first
        | exact validBuf_xor _ k
        | exact validBuf_swap _ hB
        | exact hB

theorem claim6_range_invariant_witness :
    validBuf [[[250, 251], [252, 253]]] ∧
    (validBuf (swap_pixels [[[250, 251], [252, 253]]]) ∧
     validBuf (xor_pixels [[[250, 251], [252, 253]]] 255) ∧
     validBuf (encrypt_array [[[250, 251], [252, 253]]] 255 mBoth) ∧
     validBuf (decrypt_array [[[250, 251], [252, 253]]] 255 mBoth)) :=
  ⟨by decide, claim6_range_invariant _ 255 mBoth (by decide)⟩

theorem hasDims_swap (B : Buffer) (H W C : Nat) (h : hasDims B H W C) :
    hasDims (swap_pixels B) H W C := by
  obtain ⟨h1, h2⟩ := h
  refine ⟨by simp [swap_pixels, h1], ?_⟩
  intro row hrow
  simp only [swap_pixels, List.mem_map, List.mem_reverse] at hrow
  obtain ⟨a, ha, rfl⟩ := hrow
  obtain ⟨hlen, hpx⟩ := h2 a ha
  refine ⟨by simp [hlen], ?_⟩
  intro px hp
  rw [List.mem_reverse] at hp
  exact hpx px hp

theorem hasDims_xor (B : Buffer) (H W C k : Nat) (h : hasDims B H W C) :
    hasDims (xor_pixels B k) H W C := by
  obtain ⟨h1, h2⟩ := h
  refine ⟨by simp [xor_pixels, h1], ?_⟩
  intro row hrow
  simp only [xor_pixels, List.mem_map] at hrow
  obtain ⟨a, ha, rfl⟩ := hrow
  obtain ⟨hlen, hpx⟩ := h2 a ha
  refine ⟨by simp [hlen], ?_⟩
  intro px hp
  simp only [List.mem_map] at hp
  obtain ⟨p, hpmem, rfl⟩ := hp
  simp [hpx p hpmem]

/-- C10: shape preservation — a buffer of dimensions (H, W, C) keeps exactly
those dimensions through `encrypt_array` and through `decrypt_array`, for
every key and every mode. -/
theorem claim10_shape_preservation (B : Buffer) (H W C k : Nat) (m : String)
    (h : hasDims B H W C) :
    hasDims (encrypt_array B k m) H W C ∧ hasDims (decrypt_array B k m) H W C := by
  constructor
  · simp only [encrypt_array]
    split <;> split <;>
      first
        | exact hasDims_swap _ H W C (hasDims_xor _ H W C k h)
        | exact hasDims_swap _ H W C h
        | exact hasDims_xor _ H W C k h
        | exact h
  · simp only [decrypt_array]
    split <;> split <;>
      first
        | exact hasDims_xor _ H W C k (hasDims_swap _ H W C h)
        | exact hasDims_swap _ H W C h
        | exact hasDims_xor _ H W C k h
        | exact h

theorem claim10_shape_preservation_witness :
    hasDims [[[1, 2, 3], [4, 5, 6]], [[7, 8, 9], [10, 11, 12]]] 2 2 3 ∧
    (hasDims (encrypt_array [[[1, 2, 3], [4, 5, 6]], [[7, 8, 9], [10, 11, 12]]] 77 mBoth) 2 2 3 ∧
     hasDims (decrypt_array [[[1, 2, 3], [4, 5, 6]], [[7, 8, 9], [10, 11, 12]]] 77 mBoth) 2 2 3) :=
  ⟨by decide, claim10_shape_preservation _ 2 2 3 77 mBoth (by decide)⟩

/-- C5: reversal semantics — for a buffer of H rows of W pixels, `swap_pixels`
keeps the dimensions, and the pixel at position (i, j) of the output is the
pixel at (H-1-i, W-1-j) of the input; a pixel is moved whole, so every channel
c and, with i = j = 0, the (0,0) pixel, are covered. -/
theorem claim5_swap_semantics (B : Buffer) (H W : Nat)
    (hH : B.length = H) (hW : ∀ row ∈ B, row.length = W) :
    (swap_pixels B).length = H ∧
    (∀ row ∈ swap_pixels B, row.length = W) ∧
    (∀ i j, i < H → j < W →
      ((swap_pixels B)[i]?.bind fun row => row[j]?)
        = (B[H - 1 - i]?.bind fun row => row[W - 1 - j]?)) := by
  subst hH
  refine ⟨by simp [swap_pixels], ?_, ?_⟩
  · intro row hrow
    simp only [swap_pixels, List.mem_map, List.mem_reverse] at hrow
    obtain ⟨a, ha, rfl⟩ := hrow
    simp [hW a ha]
  · intro i j hi hj
    have hidx : B.length - 1 - i < B.length := by omega
    have hmem : B[B.length - 1 - i] ∈ B := List.getElem_mem hidx
    have hrowlen : (B[B.length - 1 - i]).length = W := hW _ hmem
    have hj' : j < (B[B.length - 1 - i]).length := by omega
    simp only [swap_pixels, List.getElem?_map,
      List.getElem?_reverse hi, List.getElem?_eq_getElem hidx,
      Option.map_some', Option.some_bind]
    rw [List.getElem?_reverse hj', hrowlen]

theorem claim5_swap_semantics_witness :
    ([[[1], [2], [3]], [[4], [5], [6]]] : Buffer).length = 2 ∧
    (∀ row ∈ ([[[1], [2], [3]], [[4], [5], [6]]] : Buffer), row.length = 3) ∧
    (0 : Nat) < 2 ∧ (0 : Nat) < 3 ∧
    ((swap_pixels [[[1], [2], [3]], [[4], [5], [6]]])[0]?.bind fun row => row[0]?)
      = (([[[1], [2], [3]], [[4], [5], [6]]] : Buffer)[2 - 1 - 0]?.bind fun row => row[3 - 1 - 0]?) :=
  ⟨by decide, by decide, by decide, by decide,
    (claim5_swap_semantics _ 2 3 (by decide) (by decide)).2.2 0 0 (by decide) (by decide)⟩

/-! Command surface.  `positive_int` and the body of `main` are embedded as a
function from the parsed command line and an abstract file system (an
`isfile` predicate and a `decode` function standing for the image library)
to the observable result: the outcome plus the lists of files read and
written.  Argument validation happens before any read or write, exactly as
`argparse` runs the `type` converters and choice checks during
`parse_args()`, before the `os.path.isfile` test in `main`. -/

/-- Base-10 value of a digit string. -/
def digitsVal (cs : List Char) : Nat :=
  cs.foldl (fun a c => a * 10 + (c.toNat - 48)) 0

/-- Drop leading and trailing whitespace from a character list. -/
def trimChars (cs : List Char) : List Char :=
  ((cs.dropWhile Char.isWhitespace).reverse.dropWhile Char.isWhitespace).reverse

/-- Model of the Python builtin `int` applied to a command-line string:
surrounding whitespace is ignored, one optional sign is allowed, at least one
digit is required, and `none` models `int` raising `ValueError`. -/
def pyInt (s : String) : Option Int :=
  match trimChars s.toList with
  | '-' :: rest =>
      if rest ≠ [] ∧ rest.all Char.isDigit then some (-(digitsVal rest : Int)) else none
  | '+' :: rest =>
      if rest ≠ [] ∧ rest.all Char.isDigit then some ((digitsVal rest : Int)) else none
  | cs =>
      if cs ≠ [] ∧ cs.all Char.isDigit then some ((digitsVal cs : Int)) else none

/-- The message `positive_int` raises in `ArgumentTypeError`. -/
def keyErrMsg : String := "Key must be an integer between 0 and 255"

/-- `positive_int(value)`: parse the string as an integer and require it to
lie in [0,255]; both a failed parse and an out-of-range value end in the same
`ArgumentTypeError`. -/
def positive_int (value : String) : Except String Int :=
  match pyInt value with
  | none => Except.error keyErrMsg
  | some v => if 0 ≤ v ∧ v ≤ 255 then Except.ok v else Except.error keyErrMsg

/-- Operation string for encryption. -/
def opEncrypt : String := "encrypt"

/-- Operation string for decryption. -/
def opDecrypt : String := "decrypt"

/-- Usage error issued by argparse for an invalid positional or mode choice. -/
def invalidChoiceMsg : String := "invalid choice"

/-- The message printed when the input path is not an existing file. -/
def inputErrMsg (input : String) : String :=
  "Error: input file " ++ input ++ " does not exist."

/-- The confirmation printed by `process_image` on success. -/
def successMsg (operation output : String) : String :=
  operation.capitalize ++ "ed image saved to: " ++ output

/-- The key argument: `--key` omitted defaults to 123, otherwise the string
goes through `positive_int`. -/
def resolveKey : Option String → Except String Int
  | none => Except.ok 123
  | some s => positive_int s

/-- The mode argument: `--mode` omitted defaults to `both`. -/
def resolveMode : Option String → String
  | none => mBoth
  | some s => s

/-- Observable outcome of one invocation. -/
inductive Outcome where
  | usageError (msg : String)
  | inputMissing (msg : String)
  | success (msg : String)

/-- Result of one invocation: its outcome together with every file read
(decoded) and every file written (encoded). -/
structure ProgResult where
  outcome : Outcome
  reads : List String
  writes : List (String × Buffer)

/-- The body of `main` (plus `process_image`): argparse validation of the
operation choice, the key and the mode choice, then the `os.path.isfile`
pre-flight check, then decode, transform and encode. -/
def runMain (operation input output : String) (keyArg modeArg : Option String)
    (isfile : String → Bool) (decode : String → Buffer) : ProgResult :=
  if operation = opEncrypt ∨ operation = opDecrypt then
    match resolveKey keyArg with
    | Except.error e => ⟨Outcome.usageError e, [], []⟩
    | Except.ok keyVal =>
      if resolveMode modeArg = mSwap ∨ resolveMode modeArg = mMath ∨
          resolveMode modeArg = mBoth then
        if isfile input then
          ⟨Outcome.success (successMsg operation output), [input],
            [(output,
              if operation = opEncrypt then
                encrypt_array (decode input) keyVal.toNat (resolveMode modeArg)
              else
                decrypt_array (decode input) keyVal.toNat (resolveMode modeArg))]⟩
        else ⟨Outcome.inputMissing (inputErrMsg input), [], []⟩
      else ⟨Outcome.usageError invalidChoiceMsg, [], []⟩
  else ⟨Outcome.usageError invalidChoiceMsg, [], []⟩

/-- C7: key validation — whenever the `--key` string does not parse to an
integer in [0,255], the run ends in a usage error with no file read and no
file written; and with `--key` omitted the key resolves to 123. -/
theorem claim7_key_validation (op inp out s : String) (modeArg : Option String)
    (isfile : String → Bool) (decode : String → Buffer)
    (h : ∀ v : Int, pyInt s = some v → v < 0 ∨ 255 < v) :
    (∃ msg, runMain op inp out (some s) modeArg isfile decode
      = ⟨Outcome.usageError msg, [], []⟩) ∧
    resolveKey none = Except.ok 123 := by
  refine ⟨?_, rfl⟩
  have hkey : resolveKey (some s) = Except.error keyErrMsg := by
    show positive_int s = Except.error keyErrMsg
    unfold positive_int
    cases hp : pyInt s with
    | none => rfl
    | some v =>
      have hv := h v hp
      have hcond : ¬(0 ≤ v ∧ v ≤ 255) := by omega
      show (if 0 ≤ v ∧ v ≤ 255 then Except.ok v else Except.error keyErrMsg)
        = Except.error keyErrMsg
      rw [if_neg hcond]
  unfold runMain
  by_cases hop : op = opEncrypt ∨ op = opDecrypt
  · rw [if_pos hop, hkey]
    exact ⟨keyErrMsg, rfl⟩
  · rw [if_neg hop]
    exact ⟨invalidChoiceMsg, rfl⟩

/-- Sample input path for the closed witnesses. -/
def sampleIn : String := "photo.png"

/-- Sample output path for the closed witnesses. -/
def sampleOut : String := "scrambled.png"

/-- Key string just above the accepted range. -/
def key256 : String := "256"

theorem claim7_key_validation_witness :
    (∀ v : Int, pyInt key256 = some v → v < 0 ∨ 255 < v) ∧
    ((∃ msg, runMain opEncrypt sampleIn sampleOut (some key256) none
        (fun _ => true) (fun _ => []) = ⟨Outcome.usageError msg, [], []⟩) ∧
      resolveKey none = Except.ok 123) := by
  have h : ∀ v : Int, pyInt key256 = some v → v < 0 ∨ 255 < v := by
    intro v hv
    have h256 : pyInt key256 = some 256 := by decide
    rw [h256] at hv
    injection hv with hveq
    omega
  exact ⟨h, claim7_key_validation opEncrypt sampleIn sampleOut key256 none
    (fun _ => true) (fun _ => []) h⟩

/-- C8: missing input file — when the arguments pass validation but the input
path is not an existing file, the run reports the human-readable error and
reads and writes no file at all: no decode, no transform, no encode. -/
theorem claim8_missing_input (op inp out : String) (keyArg modeArg : Option String)
    (isfile : String → Bool) (decode : String → Buffer)
    (hop : op = opEncrypt ∨ op = opDecrypt)
    (hkey : ∃ v, resolveKey keyArg = Except.ok v)
    (hmode : resolveMode modeArg = mSwap ∨ resolveMode modeArg = mMath ∨
      resolveMode modeArg = mBoth)
    (hfile : isfile inp = false) :
    runMain op inp out keyArg modeArg isfile decode
      = ⟨Outcome.inputMissing (inputErrMsg inp), [], []⟩ := by
  obtain ⟨v, hv⟩ := hkey
  unfold runMain
  rw [if_pos hop]
  simp only [hv]
  rw [if_pos hmode]
  simp [hfile]

theorem claim8_missing_input_witness :
    (opEncrypt = opEncrypt ∨ opEncrypt = opDecrypt) ∧
    (∃ v, resolveKey none = Except.ok v) ∧
    ((fun _ : String => false) sampleIn = false) ∧
    runMain opEncrypt sampleIn sampleOut none none (fun _ => false) (fun _ => [])
      = ⟨Outcome.inputMissing (inputErrMsg sampleIn), [], []⟩ :=
  ⟨Or.inl rfl, ⟨123, rfl⟩, rfl,
    claim8_missing_input opEncrypt sampleIn sampleOut none none
      (fun _ => false) (fun _ => [])
      (Or.inl rfl) ⟨123, rfl⟩ (Or.inr (Or.inr rfl)) rfl⟩
